import Mathlib

/-!
Verification of the Crazy Eights card-game client (React frontend) and of the
game engine it talks to.  Client functions are embedded from
`src/frontend/src/components/GameBoard.tsx`, `WaitingRoom.tsx` and `App.tsx`;
JavaScript strings are modelled as `List Char` so that `includes`/`replace`
and truthiness checks can be stated faithfully.
-/

/-- A JavaScript string, modelled as its list of UTF-16 code units. -/
abbrev JStr := List Char

/-- JavaScript truthiness of a possibly-absent string: `null`/`undefined`
and the empty string are falsy, every other string is truthy. -/
def truthy : Option JStr → Bool
  | none => false
  | some s => !s.isEmpty

/-- Embeds `hay.startsWith(needle)`: `needle` is an initial segment of `hay`. -/
def jStartsWith : JStr → JStr → Bool
  | _, [] => true
  | [], _ :: _ => false
  | h :: hs, n :: ns => h == n && jStartsWith hs ns

/-- Embeds `hay.includes(needle)`: `needle` occurs as a contiguous substring. -/
def jIncludes (hay needle : JStr) : Bool :=
  match hay with
  | [] => needle.isEmpty
  | _ :: t => jStartsWith hay needle || jIncludes t needle

/-- Embeds `hay.replace(needle, '')`: removes the first occurrence of
`needle` (JavaScript replaces only the first match; an empty pattern matches
at index 0 and replacing it with the empty string leaves `hay` unchanged). -/
def replaceFirst (hay needle : JStr) : JStr :=
  match hay with
  | [] => []
  | h :: t =>
    if needle.isEmpty then h :: t
    else if jStartsWith (h :: t) needle then List.drop needle.length (h :: t)
    else h :: replaceFirst t needle

/-- A card as the client sees it (`interface Card` in GameBoard.tsx):
rank and suit are plain strings. -/
structure Card where
  rank : JStr
  suit : JStr
  deriving DecidableEq

/-- The suit probe list of GameBoard.tsx line 27, exactly as the file's bytes
decode: each entry is a three-character mojibake string (U+201A U+00F4
followed by U+2022, U+00B6, U+00A3 or U+2020), the residue of the clean
suit symbol's UTF-8 bytes having been re-decoded as MacRoman — not the
one-character symbols ♥ ♦ ♣ ♠ of the wire format. -/
def suitSymbols : List JStr :=
  [['‚', 'ô', '•'], ['‚', 'ô', '¶'], ['‚', 'ô', '£'], ['‚', 'ô', '†']]

/-- Embeds `parseCard` (GameBoard.tsx lines 22-32): a card string shorter than
two characters yields the empty card; otherwise the suit is the first suit
symbol the string includes (or the empty string) and the rank is the string
with that first occurrence removed. -/
def parseCard (cardStr : JStr) : Card :=
  if cardStr.length < 2 then ⟨[], []⟩
  else
    let suit := (suitSymbols.find? (fun s => jIncludes cardStr s)).getD []
    let rank := replaceFirst cardStr suit
    ⟨rank, suit⟩

/-- The four clean one-character suit symbols of the wire format, as the
spec's data model and the server's card strings (for example `8♥`) use
them. -/
def wireSuitSymbols : List JStr := [['♥'], ['♦'], ['♣'], ['♠']]

/-- Modelled from the spec: the card a wire string denotes — split at the
clean suit symbol the string contains, per the spec's Card data model and
the documented wire format `rank ++ suit`.  This is what a correct
`parseCard` would compute; the source's `parseCard` above instead probes the
mojibake `suitSymbols` literals. -/
def wireParseCard (cardStr : JStr) : Card :=
  if cardStr.length < 2 then ⟨[], []⟩
  else
    let suit := (wireSuitSymbols.find? (fun s => jIncludes cardStr s)).getD []
    let rank := replaceFirst cardStr suit
    ⟨rank, suit⟩

/-- The thirteen rank strings of the wire format, `A,2..10,J,Q,K`. -/
def rankStrings : List JStr :=
  [['A'], ['2'], ['3'], ['4'], ['5'], ['6'], ['7'], ['8'], ['9'],
   ['1', '0'], ['J'], ['Q'], ['K']]

/-- Embeds `cardsEqual` (GameBoard.tsx lines 38-41): false when either side
is null, else compares rank and suit. -/
def cardsEqual (a b : Option Card) : Bool :=
  match a, b with
  | some a, some b => a.rank == b.rank && a.suit == b.suit
  | _, _ => false

/-- The slice of the server-sent game state that the GameBoard component
reads: each field is a nullable string exactly as received over the wire. -/
structure BoardState where
  active_suit : Option JStr
  top_card : Option JStr
  current_player_id : Option JStr
  deriving DecidableEq

/-- Embeds `canPlayCard` (GameBoard.tsx lines 107-121), including the
JavaScript truthiness tests on `gameState`, `gameState.active_suit` and
`gameState.top_card`. -/
def canPlayCard (gameState : Option BoardState) (card : Card) : Bool :=
  match gameState with
  | none => false
  | some gs =>
    if card.rank == ['8'] then true
    else if truthy gs.active_suit then card.suit == gs.active_suit.getD []
    else if !truthy gs.top_card then false
    else
      let topCard := parseCard (gs.top_card.getD [])
      card.suit == topCard.suit || card.rank == topCard.rank

/-- The spec's ordered legality rule, written from the spec's words alone
(for comparison with `canPlayCard`): an eight is always legal; otherwise,
when `activeSuit` is set, legal iff the suit matches it; otherwise, when a
top card is present, legal iff suit or rank matches the top card — the top
card being the card the wire string denotes (`wireParseCard`). -/
def specLegalityRule (gs : BoardState) (card : Card) : Bool :=
  if card.rank == ['8'] then true
  else
    match gs.active_suit with
    | some s => card.suit == s
    | none =>
      match gs.top_card with
      | some tStr =>
        let t := wireParseCard tStr
        card.suit == t.suit || card.rank == t.rank
      | none => false

/-- The body that `handlePlayCard` (GameBoard.tsx lines 123-148) submits:
the card as `rank ++ suit`, and `declared_suit` equal to the chosen suit for
an eight and `null` for every other card. -/
structure PlayRequest where
  card : JStr
  declared_suit : Option JStr
  deriving DecidableEq

/-- Embeds the request construction in `handlePlayCard` (lines 132-135). -/
def buildPlayRequest (selected : Card) (declaredSuit : Option JStr) : PlayRequest :=
  { card := selected.rank ++ selected.suit,
    declared_suit := if selected.rank == ['8'] then declaredSuit else none }

/-- Embeds `isCurrentPlayer` (GameBoard.tsx line 168):
`gameState.current_player_id === playerId`. -/
def isCurrentPlayer (gs : BoardState) (playerId : JStr) : Bool :=
  gs.current_player_id == some playerId

/-- A mutating request that the rendered GameBoard can initiate. -/
inductive UIAction
  | draw
  | play (req : PlayRequest)
  deriving DecidableEq

/-- Embeds the GameBoard render (lines 211-220 and 243-269): the deck's
`onClick` is attached only for the current player; the action block is
rendered only for the current player with a selected card; for an eight the
Play 8 button is disabled until a truthy suit has been declared. -/
def availableActions (gs : BoardState) (playerId : JStr)
    (selectedCard : Option Card) (declaredSuit : Option JStr) : List UIAction :=
  let drawActs := if isCurrentPlayer gs playerId then [UIAction.draw] else []
  let playActs :=
    match selectedCard with
    | none => []
    | some sel =>
      if isCurrentPlayer gs playerId then
        if sel.rank == ['8'] then
          if truthy declaredSuit then [UIAction.play (buildPlayRequest sel declaredSuit)]
          else []
        else [UIAction.play (buildPlayRequest sel declaredSuit)]
      else []
  drawActs ++ playActs

/-- The payload of a push update as the client reads it: it may carry a
`player_state` field, a `game_state` field, and is itself readable as a board
state (the handler falls back to the raw `data` object). -/
structure UpdateData where
  player_state : Option BoardState
  game_state : Option BoardState
  asBoardState : BoardState
  deriving DecidableEq

/-- A push message (`interface GameUpdate`): a string `type` tag and a
nullable `data` payload. -/
structure GameUpdate where
  type : JStr
  data : Option UpdateData
  deriving DecidableEq

/-- The board state an absent (`update.data || {}`) payload is read as:
an empty object, with every probed field missing. -/
def emptyUpdateData : UpdateData := ⟨none, none, ⟨none, none, none⟩⟩

/-- Embeds the `ws.onmessage` handler of GameBoard.tsx (lines 76-88), whose
probing cascade WaitingRoom.tsx (lines 42-53) repeats verbatim: the board
state is `data.player_state || data.game_state || data`, with `update.data`
itself defaulted to `{}`.  The `type` tag is never consulted. -/
def selectBoardState (u : GameUpdate) : BoardState :=
  let d := u.data.getD emptyUpdateData
  match d.player_state with
  | some ps => ps
  | none =>
    match d.game_state with
    | some gs => gs
    | none => d.asBoardState

/-- A player entry as WaitingRoom.tsx and App.tsx see it. -/
structure PlayerInfo where
  id : JStr
  name : JStr
  deriving DecidableEq

/-- Embeds `isReady` (WaitingRoom.tsx line 80): `players.length === 2`. -/
def isReady (players : List PlayerInfo) : Bool := players.length == 2

/-- The Start Game button is rendered exactly when `isReady`
(WaitingRoom.tsx lines 101-105). -/
def startButtonShown (players : List PlayerInfo) : Bool := isReady players

/-- Embeds the guard in `handleStartGame` (App.tsx lines 50-54): the start
request is issued only when the freshly fetched state has a `players` array
of length at least 2. -/
def issuesStartRequest (players : Option (List PlayerInfo)) : Bool :=
  match players with
  | none => false
  | some ps => decide (2 ≤ ps.length)

namespace Engine

/-- Modelled from the spec: the backend game engine (`game.py`) is not part of
the sources at hand, so this whole namespace follows §4.2 of the spec.
A card's suit. -/
inductive Suit
  | hearts | diamonds | clubs | spades
  deriving DecidableEq

/-- Modelled from the spec: a card's rank, `A,2..10,J,Q,K`. -/
inductive Rank
  | ace | r2 | r3 | r4 | r5 | r6 | r7 | r8 | r9 | r10 | jack | queen | king
  deriving DecidableEq

/-- Modelled from the spec: an immutable card value. -/
structure Card where
  rank : Rank
  suit : Suit
  deriving DecidableEq

/-- Modelled from the spec: the game lifecycle states. -/
inductive GState
  | WAITING | ACTIVE | FINISHED
  deriving DecidableEq

/-- Modelled from the spec: a seated player with an id, a name and a hand. -/
structure Player where
  id : Nat
  name : String
  hand : List Card
  deriving DecidableEq

/-- Modelled from the spec: the aggregate game state of §3. -/
structure Game where
  players : List Player
  drawPile : List Card
  discardPile : List Card
  activeSuit : Option Suit
  currentPlayerIndex : Nat
  state : GState
  winnerId : Option Nat
  deriving DecidableEq

/-- Modelled from the spec: the error kinds of §7. -/
inductive Err
  | GameNotFound | GameFull | InvalidState | NotEnoughPlayers | PlayerNotInGame
  | NotYourTurn | CardNotInHand | MissingDeclaredSuit | IllegalMove | DeckExhausted
  deriving DecidableEq

/-- Modelled from the spec: a game is created empty, in WAITING. -/
def newGame : Game :=
  { players := [], drawPile := [], discardPile := [], activeSuit := none,
    currentPlayerIndex := 0, state := GState.WAITING, winnerId := none }

/-- All thirteen ranks. -/
def allRanks : List Rank :=
  [.ace, .r2, .r3, .r4, .r5, .r6, .r7, .r8, .r9, .r10, .jack, .queen, .king]

/-- All four suits. -/
def allSuits : List Suit := [.hearts, .diamonds, .clubs, .spades]

/-- The full 52-card deck in a reference order; a shuffled deck is any
permutation of it. -/
def fullDeck : List Card :=
  allRanks.flatMap (fun r => allSuits.map (fun s => ⟨r, s⟩))

/-- Modelled from the spec: `join` is allowed only in WAITING (`InvalidState`
otherwise) and only while fewer than two players are seated (`GameFull`
otherwise); it assigns a fresh id and appends a player with an empty hand. -/
def join (g : Game) (name : String) : Except Err (Nat × Game) :=
  if g.state ≠ GState.WAITING then .error .InvalidState
  else if 2 ≤ g.players.length then .error .GameFull
  else
    let pid := g.players.length
    .ok (pid, { g with players := g.players ++ [⟨pid, name, []⟩] })

/-- Modelled from the spec: `start` is idempotent — outside WAITING it
returns the game unchanged; in WAITING it fails with `NotEnoughPlayers`
unless exactly two players are seated, and otherwise deals 7 cards to each
player in join order from the supplied shuffled deck, flips one card to the
discard pile, sets the turn to player 0 and transitions to ACTIVE.  The
shuffled deck is passed in explicitly to keep the operation deterministic. -/
def start (g : Game) (deck : List Card) : Except Err Game :=
  if g.state ≠ GState.WAITING then .ok g
  else
    match g.players with
    | [p0, p1] =>
      .ok { g with
              players := [{ p0 with hand := deck.take 7 },
                          { p1 with hand := (deck.drop 7).take 7 }]
              drawPile := deck.drop 15
              discardPile := (deck.drop 14).take 1
              activeSuit := none
              currentPlayerIndex := 0
              state := GState.ACTIVE }
    | _ => .error .NotEnoughPlayers

/-- Modelled from the spec: the legality test for a non-eight card — match
the active suit when it is set, otherwise match the top card's suit or
rank. -/
def legalPlay (g : Game) (card : Card) : Bool :=
  match g.activeSuit with
  | some s => card.suit == s
  | none =>
    match g.discardPile.getLast? with
    | some t => card.suit == t.suit || card.rank == t.rank
    | none => false

/-- Modelled from the spec: the successful effect of a play — remove the card
from the current player's hand, append it to the discard pile, set or clear
the active suit; finish the game if the hand is now empty, otherwise advance
the turn. -/
def applyCard (g : Game) (cur : Player) (pid : Nat) (card : Card)
    (newActive : Option Suit) : Game :=
  let newHand := cur.hand.erase card
  let players := g.players.set g.currentPlayerIndex { cur with hand := newHand }
  let discard := g.discardPile ++ [card]
  if newHand.isEmpty then
    { g with
        players := players
        discardPile := discard
        activeSuit := newActive
        state := GState.FINISHED
        winnerId := some pid }
  else
    { g with
        players := players
        discardPile := discard
        activeSuit := newActive
        currentPlayerIndex := (g.currentPlayerIndex + 1) % g.players.length }

/-- Modelled from the spec: `play` — `InvalidState` outside ACTIVE,
`NotYourTurn` for anyone but the current player, `CardNotInHand` when the
card is absent, then the ordered legality rule (`MissingDeclaredSuit` for an
eight without a declared suit, `IllegalMove` for a non-matching non-eight),
and on success the atomic effect `applyCard`. -/
def play (g : Game) (pid : Nat) (card : Card) (declaredSuit : Option Suit) :
    Except Err Game :=
  if g.state ≠ GState.ACTIVE then .error .InvalidState
  else
    match g.players[g.currentPlayerIndex]? with
    | none => .error .NotYourTurn
    | some cur =>
      if cur.id ≠ pid then .error .NotYourTurn
      else if card ∉ cur.hand then .error .CardNotInHand
      else if card.rank == Rank.r8 then
        match declaredSuit with
        | none => .error .MissingDeclaredSuit
        | some s => .ok (applyCard g cur pid card (some s))
      else if legalPlay g card then .ok (applyCard g cur pid card none)
      else .error .IllegalMove

/-- Modelled from the spec: `drawCard` — `InvalidState` outside ACTIVE,
`NotYourTurn` for anyone but the current player; when the draw pile is empty
all but the top discard card become the new draw pile (`DeckExhausted` when
that still yields nothing); one card then moves from the front of the draw
pile to the drawing player's hand and the turn advances. -/
def drawCard (g : Game) (pid : Nat) : Except Err Game :=
  if g.state ≠ GState.ACTIVE then .error .InvalidState
  else
    match g.players[g.currentPlayerIndex]? with
    | none => .error .NotYourTurn
    | some cur =>
      if cur.id ≠ pid then .error .NotYourTurn
      else
        let pile := if g.drawPile.isEmpty then g.discardPile.dropLast else g.drawPile
        let discard :=
          if g.drawPile.isEmpty then g.discardPile.drop (g.discardPile.length - 1)
          else g.discardPile
        match pile with
        | [] => .error .DeckExhausted
        | c :: rest =>
          .ok { g with
                  players := g.players.set g.currentPlayerIndex
                    { cur with hand := cur.hand ++ [c] }
                  drawPile := rest
                  discardPile := discard
                  currentPlayerIndex := (g.currentPlayerIndex + 1) % g.players.length }

/-- How the directory applies a mutating result: a rejected command keeps the
previous game state (rejection is atomic). -/
def applyOrKeep (g : Game) (r : Except Err Game) : Game :=
  match r with
  | .ok g2 => g2
  | .error _ => g

/-- The total number of cards a players list holds in hands. -/
def handsSize (ps : List Player) : Nat := (ps.map (fun p => p.hand.length)).sum

/-- The total number of cards in a game: draw pile, discard pile and all
hands. -/
def cardCount (g : Game) : Nat :=
  g.drawPile.length + g.discardPile.length + handsSize g.players

/-- The states reachable from a fresh game by the engine operations; `start`
may be given any permutation of the full 52-card deck as its shuffle. -/
inductive Reachable : Game → Prop
  | init : Reachable newGame
  | joinStep {g : Game} {name : String} {pid : Nat} {g2 : Game} :
      Reachable g → join g name = .ok (pid, g2) → Reachable g2
  | startStep {g : Game} {deck : List Card} {g2 : Game} :
      Reachable g → deck.Perm fullDeck → start g deck = .ok g2 → Reachable g2
  | playStep {g : Game} {pid : Nat} {card : Card} {ds : Option Suit} {g2 : Game} :
      Reachable g → play g pid card ds = .ok g2 → Reachable g2
  | drawStep {g : Game} {pid : Nat} {g2 : Game} :
      Reachable g → drawCard g pid = .ok g2 → Reachable g2

/-- The conservation invariant: no cards before the deal, exactly 52 from
the deal on. -/
def conserved (g : Game) : Prop :=
  (g.state = GState.WAITING → cardCount g = 0) ∧
  (g.state ≠ GState.WAITING → cardCount g = 52)

/-- A concrete ACTIVE two-player position used as a test fixture: player 0
(to move) holds the 8♥, player 1 holds the 2♣, the 7♠ tops the discard
pile. -/
def sampleActiveGame : Game :=
  { players := [⟨0, "A", [⟨Rank.r8, Suit.hearts⟩]⟩, ⟨1, "B", [⟨Rank.r2, Suit.clubs⟩]⟩],
    drawPile := [⟨Rank.r3, Suit.clubs⟩],
    discardPile := [⟨Rank.r7, Suit.spades⟩],
    activeSuit := none,
    currentPlayerIndex := 0,
    state := GState.ACTIVE,
    winnerId := none }

end Engine

/-! ## Theorems -/

theorem replaceFirst_nil_needle (s : JStr) : replaceFirst s [] = s := by
  cases s <;> simp [replaceFirst]

/-- C7: `cardsEqual` on two non-null cards is true exactly when both the
ranks and the suits agree, so card equality is decided by the (rank, suit)
pair. -/
theorem cardsEqual_iff_rank_and_suit (a b : Card) :
    cardsEqual (some a) (some b) = true ↔ a.rank = b.rank ∧ a.suit = b.suit := by
  simp [cardsEqual]

theorem cardsEqual_iff_rank_and_suit_witness :
    cardsEqual (some ⟨['8'], ['♥']⟩) (some ⟨['8'], ['♠']⟩) = true ↔
      (['8'] : JStr) = ['8'] ∧ (['♥'] : JStr) = ['♠'] :=
  cardsEqual_iff_rank_and_suit ⟨['8'], ['♥']⟩ ⟨['8'], ['♠']⟩

/-- C8: the round trip fails on the source — `parseCard`'s probe list holds
the mojibake suit strings, so for every rank string and every clean wire
suit symbol the source's `parseCard` leaves the concatenation `rank ++ suit`
unsplit, returning it whole as the rank with an empty suit, instead of
recovering the card; shown across all 52 cards and, explicitly, the claimed
round trip is false at `A♥`. -/
theorem parseCard_fails_roundtrip_on_wire_suits :
    (rankStrings.all fun r => wireSuitSymbols.all fun s =>
      parseCard (r ++ s) == Card.mk (r ++ s) []) = true ∧
    parseCard (['A'] ++ ['♥']) ≠ ⟨['A'], ['♥']⟩ := by
  decide

/-- C10: `parseCard` is total on malformed input — a string shorter than two
characters parses to the empty card, and a longer string containing no suit
symbol parses to itself as rank with an empty suit; no input fails. -/
theorem parseCard_total_on_malformed :
    (∀ s : JStr, s.length < 2 → parseCard s = ⟨[], []⟩) ∧
    (∀ s : JStr, 2 ≤ s.length →
      (∀ q ∈ suitSymbols, jIncludes s q = false) → parseCard s = ⟨s, []⟩) := by
  constructor
  · intro s h
    simp [parseCard, h]
  · intro s h hq
    have hfind : suitSymbols.find? (fun q => jIncludes s q) = none := by
      rw [List.find?_eq_none]
      intro q hmem
      simp [hq q hmem]
    simp [parseCard, Nat.not_lt.mpr h, hfind, replaceFirst_nil_needle]

theorem parseCard_total_on_malformed_witness :
    parseCard ['A'] = ⟨[], []⟩ ∧ parseCard ['x', 'y'] = ⟨['x', 'y'], []⟩ :=
  ⟨parseCard_total_on_malformed.1 ['A'] (by decide),
   parseCard_total_on_malformed.2 ['x', 'y'] (by decide) (by decide)⟩

/-- C9: the GameBoard offers the mutating actions only to the player whose
turn it is — when the viewing player is not `current_player_id`, neither the
draw-pile click nor any play control is available, whatever card may be
selected and whatever suit declared. -/
theorem actions_only_for_current_player (gs : BoardState) (playerId : JStr)
    (sel : Option Card) (ds : Option JStr)
    (h : gs.current_player_id ≠ some playerId) :
    availableActions gs playerId sel ds = [] := by
  have hb : isCurrentPlayer gs playerId = false := by
    simpa [isCurrentPlayer] using h
  cases sel <;> simp [availableActions, hb]

theorem actions_only_for_current_player_witness :
    availableActions ⟨none, none, some ['p', '1']⟩ ['p', '2']
      (some ⟨['8'], ['♥']⟩) (some ['♦']) = [] :=
  actions_only_for_current_player ⟨none, none, some ['p', '1']⟩ ['p', '2']
    (some ⟨['8'], ['♥']⟩) (some ['♦']) (by decide)

/-- C3 counterexample: at concrete push messages, the client's `onmessage`
handler yields the same board state for two different `type` tags carrying
the same payload, yet yields different board states for the same tag when
only the presence of the optional `player_state` field changes — the handler
probes optional payload fields and does not dispatch on the discriminant. -/
theorem update_handler_ignores_type_tag :
    selectBoardState ⟨['p'], some ⟨some ⟨some ['♥'], none, none⟩,
        some ⟨some ['♠'], none, none⟩, ⟨none, none, none⟩⟩⟩ =
      selectBoardState ⟨['g'], some ⟨some ⟨some ['♥'], none, none⟩,
        some ⟨some ['♠'], none, none⟩, ⟨none, none, none⟩⟩⟩ ∧
    (['p'] : JStr) ≠ ['g'] ∧
    selectBoardState ⟨['p'], some ⟨some ⟨some ['♥'], none, none⟩,
        some ⟨some ['♠'], none, none⟩, ⟨none, none, none⟩⟩⟩ ≠
      selectBoardState ⟨['p'], some ⟨none,
        some ⟨some ['♠'], none, none⟩, ⟨none, none, none⟩⟩⟩ := by
  decide

/-- C3 amended: push messages do carry an explicit `type` tag, but the client
consumers ignore it — the selected board state is independent of the tag and
is chosen by probing the payload's optional fields: `data.player_state` if
present, else `data.game_state`, else the `data` object itself (an absent
payload is read as the empty object). -/
theorem update_handler_probes_payload :
    (∀ (t t2 : JStr) (d : Option UpdateData),
      selectBoardState ⟨t, d⟩ = selectBoardState ⟨t2, d⟩) ∧
    (∀ (t : JStr) (d : UpdateData),
      selectBoardState ⟨t, some d⟩ =
        (d.player_state.getD (d.game_state.getD d.asBoardState))) ∧
    (∀ t : JStr, selectBoardState ⟨t, none⟩ = emptyUpdateData.asBoardState) := by
  refine ⟨fun t t2 d => rfl, fun t d => ?_, fun t => rfl⟩
  rcases d with ⟨ps, gsf, sf⟩
  cases ps <;> cases gsf <;> rfl

/-- C1: the client's `canPlayCard` does not implement the spec's ordered
legality rule — on a server-produced state with top card `7♣`, no active
suit, and the non-eight card 7♦, the spec's rule says legal (rank matches
the top card), but `canPlayCard` returns false: its `parseCard` probes the
mojibake suit literals, never splits the clean top-card string, and so the
suit and rank comparisons can never succeed. -/
theorem canPlayCard_diverges_from_ordered_legality :
    canPlayCard (some ⟨none, some ['7', '♣'], none⟩) ⟨['7'], ['♦']⟩ = false ∧
    specLegalityRule ⟨none, some ['7', '♣'], none⟩ ⟨['7'], ['♦']⟩ = true ∧
    parseCard ['7', '♣'] = ⟨['7', '♣'], []⟩ := by
  decide

namespace Engine

theorem handsSize_append (ps qs : List Player) :
    handsSize (ps ++ qs) = handsSize ps + handsSize qs := by
  simp [handsSize]

theorem handsSize_set (ps : List Player) (i : Nat) (p q : Player)
    (h : ps[i]? = some p) :
    handsSize (ps.set i q) + p.hand.length = handsSize ps + q.hand.length := by
  induction ps generalizing i with
  | nil => simp at h
  | cons a t ih =>
    cases i with
    | zero =>
      simp only [List.getElem?_cons_zero, Option.some_inj] at h
      subst h
      simp [handsSize]
      omega
    | succ n =>
      simp only [List.getElem?_cons_succ] at h
      have := ih n h
      simp only [List.set_cons_succ, handsSize, List.map_cons, List.sum_cons] at *
      omega

theorem join_ok {g : Game} {name : String} {pid : Nat} {g2 : Game}
    (h : join g name = .ok (pid, g2)) :
    g.state = GState.WAITING ∧ g2.state = GState.WAITING ∧
    cardCount g2 = cardCount g := by
  unfold join at h
  split at h
  · exact absurd h (by simp)
  next hstate =>
    split at h
    · exact absurd h (by simp)
    next hlen =>
      have hW : g.state = GState.WAITING := not_not.mp hstate
      simp only [Except.ok.injEq, Prod.mk.injEq] at h
      obtain ⟨-, h2⟩ := h
      subst h2
      refine ⟨hW, hW, ?_⟩
      simp [cardCount, handsSize_append, handsSize]

end Engine

namespace Engine

theorem start_ok_conserved {g : Game} {deck : List Card} {g2 : Game}
    (h : start g deck = .ok g2) (hlen : deck.length = 52)
    (hc : conserved g) : conserved g2 := by
  unfold start at h
  split at h
  next hstate =>
    simp only [Except.ok.injEq] at h
    subst h
    exact hc
  next hstate =>
    have hW : g.state = GState.WAITING := not_not.mp hstate
    split at h
    next p0 p1 hps =>
      simp only [Except.ok.injEq] at h
      subst h
      constructor
      · intro hW2
        simp at hW2
      · intro _
        simp [cardCount, handsSize, List.length_take, List.length_drop, hlen]
    · exact absurd h (by simp)

theorem state_applyCard (g : Game) (cur : Player) (pid : Nat) (card : Card)
    (na : Option Suit) :
    (applyCard g cur pid card na).state = GState.FINISHED ∨
    (applyCard g cur pid card na).state = g.state := by
  by_cases hE : (cur.hand.erase card).isEmpty
  · exact Or.inl (by simp [applyCard, hE])
  · exact Or.inr (by simp [applyCard, hE])

theorem cardCount_applyCard (g : Game) (cur : Player) (pid : Nat) (card : Card)
    (na : Option Suit) (hcur : g.players[g.currentPlayerIndex]? = some cur)
    (hmem : card ∈ cur.hand) :
    cardCount (applyCard g cur pid card na) = cardCount g := by
  have hset := handsSize_set g.players g.currentPlayerIndex cur
    { cur with hand := cur.hand.erase card } hcur
  have herase : (cur.hand.erase card).length = cur.hand.length - 1 :=
    List.length_erase_of_mem hmem
  have hpos : 0 < cur.hand.length := List.length_pos.mpr (List.ne_nil_of_mem hmem)
  by_cases hE : (cur.hand.erase card).isEmpty <;>
    simp only [applyCard, hE, if_true, if_false, Bool.false_eq_true, cardCount,
      List.length_append, List.length_cons, List.length_nil] at * <;>
    omega

theorem play_ok_elim {g : Game} {pid : Nat} {card : Card} {ds : Option Suit}
    {g2 : Game} (h : play g pid card ds = .ok g2) :
    g.state = GState.ACTIVE ∧
    ∃ cur na, g.players[g.currentPlayerIndex]? = some cur ∧
      card ∈ cur.hand ∧ g2 = applyCard g cur pid card na := by
  unfold play at h
  split at h
  · exact absurd h (by simp)
  next hstate =>
    refine ⟨not_not.mp hstate, ?_⟩
    split at h
    · exact absurd h (by simp)
    next cur hcur =>
      split at h
      · exact absurd h (by simp)
      next hid =>
        split at h
        · exact absurd h (by simp)
        next hmem =>
          have hmem2 : card ∈ cur.hand := not_not.mp hmem
          split at h
          · split at h
            · exact absurd h (by simp)
            next s =>
              simp only [Except.ok.injEq] at h
              exact ⟨cur, some s, hcur, hmem2, h.symm⟩
          · split at h
            · simp only [Except.ok.injEq] at h
              exact ⟨cur, none, hcur, hmem2, h.symm⟩
            · exact absurd h (by simp)

theorem draw_ok_elim {g : Game} {pid : Nat} {g2 : Game}
    (h : drawCard g pid = .ok g2) :
    g.state = GState.ACTIVE ∧ g2.state = g.state ∧
    cardCount g2 = cardCount g := by
  unfold drawCard at h
  split at h
  · exact absurd h (by simp)
  next hstate =>
    refine ⟨not_not.mp hstate, ?_⟩
    split at h
    · exact absurd h (by simp)
    next cur hcur =>
      split at h
      · exact absurd h (by simp)
      next hid =>
        by_cases hE : g.drawPile.isEmpty
        all_goals simp only [hE, if_true, if_false, Bool.false_eq_true] at h
        · split at h
          · exact absurd h (by simp)
          next c rest hpile =>
            simp only [Except.ok.injEq] at h
            subst h
            have hset := handsSize_set g.players g.currentPlayerIndex cur
              { cur with hand := cur.hand ++ [c] } hcur
            have hdl : g.discardPile.dropLast.length = g.discardPile.length - 1 :=
              g.discardPile.length_dropLast
            have hpl : g.discardPile.dropLast.length = rest.length + 1 := by
              rw [hpile]; simp
            have hdp : g.drawPile.length = 0 := by
              simpa [List.isEmpty_iff, List.length_eq_zero] using hE
            refine ⟨rfl, ?_⟩
            simp only [cardCount, List.length_append, List.length_cons,
              List.length_nil, List.length_drop] at *
            omega
        · split at h
          · exact absurd h (by simp)
          next c rest hpile =>
            simp only [Except.ok.injEq] at h
            subst h
            have hset := handsSize_set g.players g.currentPlayerIndex cur
              { cur with hand := cur.hand ++ [c] } hcur
            have hdp : g.drawPile.length = rest.length + 1 := by
              rw [hpile]; simp
            refine ⟨rfl, ?_⟩
            simp only [cardCount, List.length_append, List.length_cons,
              List.length_nil] at *
            omega

theorem conserved_of_reachable {g : Game} (h : Reachable g) : conserved g := by
  induction h with
  | init =>
    constructor
    · intro _; rfl
    · intro hne; exact absurd rfl hne
  | joinStep hr hj ih =>
    obtain ⟨hW, hW2, hc⟩ := join_ok hj
    constructor
    · intro _; rw [hc]; exact ih.1 hW
    · intro hne; exact absurd hW2 hne
  | startStep hr hperm hs ih =>
    exact start_ok_conserved hs (hperm.length_eq.trans rfl) ih
  | @playStep g1 pid card ds g2 hr hp ih =>
    obtain ⟨hA, cur, na, hcur, hmem, hg2⟩ := play_ok_elim hp
    subst hg2
    have hc := cardCount_applyCard g1 cur pid card na hcur hmem
    have hst := state_applyCard g1 cur pid card na
    constructor
    · intro hW
      rcases hst with hst | hst
      · rw [hW] at hst; exact absurd hst (by simp)
      · rw [hW, hA] at hst; exact absurd hst (by simp)
    · intro _
      rw [hc]
      exact ih.2 (by rw [hA]; exact fun hh => by simp at hh)
  | drawStep hr hd ih =>
    obtain ⟨hA, hst, hc⟩ := draw_ok_elim hd
    constructor
    · intro hW
      rw [hst, hA] at hW
      exact absurd hW (by simp)
    · intro _
      rw [hc]
      exact ih.2 (by rw [hA]; exact fun hh => by simp at hh)

end Engine

/-- C2: card conservation — in every state reachable from a fresh game by
any sequence of join, start, play and drawCard, once the game has been dealt
(state no longer WAITING) the draw pile, discard pile and all hands together
hold exactly 52 cards, so no operation ever changes the total. -/
theorem reachable_card_conservation (g : Engine.Game)
    (h : Engine.Reachable g) (hs : g.state ≠ Engine.GState.WAITING) :
    Engine.cardCount g = 52 :=
  (Engine.conserved_of_reachable h).2 hs

theorem reachable_card_conservation_witness :
    ∃ g : Engine.Game, Engine.Reachable g ∧ g.state ≠ Engine.GState.WAITING ∧
      Engine.cardCount g = 52 := by
  have h1 : Engine.join Engine.newGame "A" =
      .ok (0, ⟨[⟨0, "A", []⟩], [], [], none, 0, Engine.GState.WAITING, none⟩) := rfl
  have h2 : Engine.join
      ⟨[⟨0, "A", []⟩], [], [], none, 0, Engine.GState.WAITING, none⟩ "B" =
      .ok (1, ⟨[⟨0, "A", []⟩, ⟨1, "B", []⟩], [], [], none, 0,
        Engine.GState.WAITING, none⟩) := rfl
  have h3 : Engine.start
      ⟨[⟨0, "A", []⟩, ⟨1, "B", []⟩], [], [], none, 0, Engine.GState.WAITING, none⟩
      Engine.fullDeck =
      .ok ⟨[⟨0, "A", Engine.fullDeck.take 7⟩,
            ⟨1, "B", (Engine.fullDeck.drop 7).take 7⟩],
           Engine.fullDeck.drop 15, (Engine.fullDeck.drop 14).take 1,
           none, 0, Engine.GState.ACTIVE, none⟩ := rfl
  have hr := Engine.Reachable.startStep
    (Engine.Reachable.joinStep (Engine.Reachable.joinStep Engine.Reachable.init h1) h2)
    (List.Perm.refl _) h3
  exact ⟨_, hr, by simp, reachable_card_conservation _ hr (by simp)⟩

/-- C5: turn exclusivity — in any ACTIVE game, a play or a draw issued by a
player whose id differs from the current player's id fails with NotYourTurn,
and the applied state after the rejected command is exactly the state
before it. -/
theorem rejected_turn_leaves_state_unchanged (g : Engine.Game) (pid : Nat)
    (card : Engine.Card) (ds : Option Engine.Suit) (cur : Engine.Player)
    (hA : g.state = Engine.GState.ACTIVE)
    (hcur : g.players[g.currentPlayerIndex]? = some cur)
    (hne : pid ≠ cur.id) :
    Engine.play g pid card ds = .error Engine.Err.NotYourTurn ∧
    Engine.drawCard g pid = .error Engine.Err.NotYourTurn ∧
    Engine.applyOrKeep g (Engine.play g pid card ds) = g ∧
    Engine.applyOrKeep g (Engine.drawCard g pid) = g := by
  have hid : cur.id ≠ pid := Ne.symm hne
  have hp : Engine.play g pid card ds = .error Engine.Err.NotYourTurn := by
    simp [Engine.play, hA, hcur, hid]
  have hd : Engine.drawCard g pid = .error Engine.Err.NotYourTurn := by
    simp [Engine.drawCard, hA, hcur, hid]
  exact ⟨hp, hd, by rw [hp]; rfl, by rw [hd]; rfl⟩

theorem rejected_turn_leaves_state_unchanged_witness :
    Engine.play Engine.sampleActiveGame 1 ⟨Engine.Rank.r2, Engine.Suit.clubs⟩ none =
      .error Engine.Err.NotYourTurn ∧
    Engine.drawCard Engine.sampleActiveGame 1 = .error Engine.Err.NotYourTurn ∧
    Engine.applyOrKeep Engine.sampleActiveGame
      (Engine.play Engine.sampleActiveGame 1 ⟨Engine.Rank.r2, Engine.Suit.clubs⟩ none) =
      Engine.sampleActiveGame ∧
    Engine.applyOrKeep Engine.sampleActiveGame
      (Engine.drawCard Engine.sampleActiveGame 1) = Engine.sampleActiveGame :=
  rejected_turn_leaves_state_unchanged Engine.sampleActiveGame 1
    ⟨Engine.Rank.r2, Engine.Suit.clubs⟩ none
    ⟨0, "A", [⟨Engine.Rank.r8, Engine.Suit.hearts⟩]⟩ rfl rfl (by decide)

/-- C4: an eight requires a declared suit — `handlePlayCard` submits a null
`declared_suit` for every non-eight card; the rendered board lets an eight
be played only once a truthy suit is declared (and then submits exactly that
suit); and the engine rejects a play of an eight without a declared suit
with MissingDeclaredSuit. -/
theorem eight_requires_declared_suit :
    (∀ (sel : Card) (ds : Option JStr), sel.rank ≠ ['8'] →
      (buildPlayRequest sel ds).declared_suit = none) ∧
    (∀ (gs : BoardState) (pid : JStr) (sel : Card) (ds : Option JStr)
        (req : PlayRequest),
      UIAction.play req ∈ availableActions gs pid (some sel) ds →
      sel.rank = ['8'] → ∃ s, req.declared_suit = some s ∧ s ≠ []) ∧
    (∀ (g : Engine.Game) (card : Engine.Card) (cur : Engine.Player),
      g.state = Engine.GState.ACTIVE →
      g.players[g.currentPlayerIndex]? = some cur →
      card ∈ cur.hand → card.rank = Engine.Rank.r8 →
      Engine.play g cur.id card none = .error Engine.Err.MissingDeclaredSuit) := by
  refine ⟨?_, ?_, ?_⟩
  · intro sel ds hne
    simp [buildPlayRequest, hne]
  · intro gs pid sel ds req hmem h8
    have h8b : (sel.rank == ['8']) = true := by simp [h8]
    unfold availableActions at hmem
    by_cases hc : isCurrentPlayer gs pid
    · simp only [hc, if_true, h8b] at hmem
      by_cases ht : truthy ds
      · simp only [ht, if_true] at hmem
        simp only [List.mem_append, List.mem_singleton] at hmem
        rcases hmem with hmem | hmem
        · exact absurd hmem (by simp)
        · cases ds with
          | none => simp [truthy] at ht
          | some s =>
            have hs : s ≠ [] := by
              simpa [truthy, List.isEmpty_iff] using ht
            have hreq : req = buildPlayRequest sel (some s) := by
              injection hmem
            exact ⟨s, by simp [hreq, buildPlayRequest, h8b], hs⟩
      · simp only [ht, if_false, Bool.false_eq_true] at hmem
        simp at hmem
    · simp [hc] at hmem
  · intro g card cur hA hcur hmem h8
    have h8b : (card.rank == Engine.Rank.r8) = true := by simp [h8]
    simp [Engine.play, hA, hcur, hmem, h8b]

theorem eight_requires_declared_suit_witness :
    (buildPlayRequest ⟨['7'], ['♦']⟩ (some ['♥'])).declared_suit = none ∧
    (∃ s, (buildPlayRequest ⟨['8'], ['♦']⟩ (some ['♥'])).declared_suit = some s ∧
      s ≠ []) ∧
    Engine.play Engine.sampleActiveGame 0
      ⟨Engine.Rank.r8, Engine.Suit.hearts⟩ none =
      .error Engine.Err.MissingDeclaredSuit :=
  ⟨eight_requires_declared_suit.1 ⟨['7'], ['♦']⟩ (some ['♥']) (by decide),
   eight_requires_declared_suit.2.1 ⟨none, none, some ['p']⟩ ['p'] ⟨['8'], ['♦']⟩
     (some ['♥']) (buildPlayRequest ⟨['8'], ['♦']⟩ (some ['♥'])) (by decide) rfl,
   eight_requires_declared_suit.2.2 Engine.sampleActiveGame
     ⟨Engine.Rank.r8, Engine.Suit.hearts⟩
     ⟨0, "A", [⟨Engine.Rank.r8, Engine.Suit.hearts⟩]⟩ rfl rfl (by decide) rfl⟩

/-- C6: start needs exactly two seated players — the engine's start succeeds
and activates the game from WAITING with two players, fails with
NotEnoughPlayers from WAITING with fewer, and outside WAITING returns the
game unchanged; the client shows the Start button exactly when two players
are listed, and `handleStartGame` refuses to issue the start request when a
fresh state read shows fewer than two players. -/
theorem start_requires_two_players :
    (∀ (g : Engine.Game) (deck : List Engine.Card) (p0 p1 : Engine.Player),
      g.state = Engine.GState.WAITING → g.players = [p0, p1] →
      ∃ g2, Engine.start g deck = .ok g2 ∧ g2.state = Engine.GState.ACTIVE) ∧
    (∀ (g : Engine.Game) (deck : List Engine.Card),
      g.state = Engine.GState.WAITING → g.players.length < 2 →
      Engine.start g deck = .error Engine.Err.NotEnoughPlayers) ∧
    (∀ (g : Engine.Game) (deck : List Engine.Card),
      g.state ≠ Engine.GState.WAITING → Engine.start g deck = .ok g) ∧
    (∀ players : List PlayerInfo, startButtonShown players = true ↔
      players.length = 2) ∧
    (∀ players : List PlayerInfo, players.length < 2 →
      issuesStartRequest (some players) = false) ∧
    issuesStartRequest none = false := by
  refine ⟨?_, ?_, ?_, ?_, ?_, rfl⟩
  · intro g deck p0 p1 hW hps
    unfold Engine.start
    rw [hps, if_neg (by simp [hW])]
    exact ⟨_, rfl, rfl⟩
  · intro g deck hW hlen
    unfold Engine.start
    rw [if_neg (by simp [hW])]
    rcases hg : g.players with _ | ⟨a, _ | ⟨b, _ | ⟨c, t⟩⟩⟩
    · rfl
    · rfl
    · rw [hg] at hlen; simp at hlen
    · rfl
  · intro g deck hne
    unfold Engine.start
    rw [if_pos hne]
  · intro players
    simp [startButtonShown, isReady]
  · intro players h
    simp [issuesStartRequest]
    omega

theorem start_requires_two_players_witness :
    (∃ g2, Engine.start
        ⟨[⟨0, "A", []⟩, ⟨1, "B", []⟩], [], [], none, 0, Engine.GState.WAITING, none⟩
        Engine.fullDeck = .ok g2 ∧ g2.state = Engine.GState.ACTIVE) ∧
    Engine.start ⟨[⟨0, "A", []⟩], [], [], none, 0, Engine.GState.WAITING, none⟩
      Engine.fullDeck = .error Engine.Err.NotEnoughPlayers ∧
    Engine.start Engine.sampleActiveGame Engine.fullDeck =
      .ok Engine.sampleActiveGame ∧
    issuesStartRequest (some [⟨['p', '1'], ['A']⟩]) = false :=
  ⟨start_requires_two_players.1
      ⟨[⟨0, "A", []⟩, ⟨1, "B", []⟩], [], [], none, 0, Engine.GState.WAITING, none⟩
      Engine.fullDeck ⟨0, "A", []⟩ ⟨1, "B", []⟩ rfl rfl,
   start_requires_two_players.2.1
      ⟨[⟨0, "A", []⟩], [], [], none, 0, Engine.GState.WAITING, none⟩
      Engine.fullDeck rfl (by decide),
   start_requires_two_players.2.2.1 Engine.sampleActiveGame Engine.fullDeck
      (by decide),
   start_requires_two_players.2.2.2.2.1 [⟨['p', '1'], ['A']⟩] (by decide)⟩
